import Mathlib

set_option maxRecDepth 100000

/-!
Verification development for the socket-based chat server.

The repository contains two server variants:
* a plain-TCP variant (`main.py`, `handlers/room_manager.py`,
  `handlers/message_handler.py`), and
* a Socket.IO variant (`app/sockets/connection.py`, `app/sockets/room.py`,
  `app/sockets/message.py`).

Both are shallowly embedded below.  Python dictionaries are modelled as
functions into `Option` (or with a default value where the code supplies a
default), Python sets as lists used up to membership, timestamps as opaque
strings supplied by the caller, and socket objects as natural-number ids.
-/

/-! ### SHA-256 (`hashlib.sha256(...).hexdigest()` used by `app/sockets/room.py`)

A complete executable SHA-256 over UTF-8 bytes, matching the Python call
`hashlib.sha256(password.encode()).hexdigest()`.  All 32-bit machine words
are `Nat` reduced modulo `2^32`. -/

def u32mod : Nat := 4294967296

def add32 (a b : Nat) : Nat := (a + b) % u32mod

def rotr32 (n x : Nat) : Nat := ((x >>> n) ||| (x <<< (32 - n))) % u32mod

def not32 (x : Nat) : Nat := Nat.xor x 4294967295

def xor3 (a b c : Nat) : Nat := Nat.xor (Nat.xor a b) c

def ssig0 (x : Nat) : Nat := xor3 (rotr32 7 x) (rotr32 18 x) (x >>> 3)

def ssig1 (x : Nat) : Nat := xor3 (rotr32 17 x) (rotr32 19 x) (x >>> 10)

def bsig0 (x : Nat) : Nat := xor3 (rotr32 2 x) (rotr32 13 x) (rotr32 22 x)

def bsig1 (x : Nat) : Nat := xor3 (rotr32 6 x) (rotr32 11 x) (rotr32 25 x)

def chf (x y z : Nat) : Nat := Nat.xor (Nat.land x y) (Nat.land (not32 x) z)

def majf (x y z : Nat) : Nat :=
  xor3 (Nat.land x y) (Nat.land x z) (Nat.land y z)

def sha256K : List Nat :=
  [1116352408, 1899447441, 3049323471, 3921009573,
   961987163, 1508970993, 2453635748, 2870763221,
   3624381080, 310598401, 607225278, 1426881987,
   1925078388, 2162078206, 2614888103, 3248222580,
   3835390401, 4022224774, 264347078, 604807628,
   770255983, 1249150122, 1555081692, 1996064986,
   2554220882, 2821834349, 2952996808, 3210313671,
   3336571891, 3584528711, 113926993, 338241895,
   666307205, 773529912, 1294757372, 1396182291,
   1695183700, 1986661051, 2177026350, 2456956037,
   2730485921, 2820302411, 3259730800, 3345764771,
   3516065817, 3600352804, 4094571909, 275423344,
   430227734, 506948616, 659060556, 883997877,
   958139571, 1322822218, 1537002063, 1747873779,
   1955562222, 2024104815, 2227730452, 2361852424,
   2428436474, 2756734187, 3204031479, 3329325298]

def sha256H0 : List Nat :=
  [1779033703, 3144134277, 1013904242, 2773480762,
   1359893119, 2600822924, 528734635, 1541459225]

/-- UTF-8 encoding of one character, as byte values (matches Python
`str.encode()`). -/
def utf8Char (c : Char) : List Nat :=
  let n := c.toNat
  if n < 128 then [n]
  else if n < 2048 then [192 + n / 64, 128 + n % 64]
  else if n < 65536 then [224 + n / 4096, 128 + (n / 64) % 64, 128 + n % 64]
  else [240 + n / 262144, 128 + (n / 4096) % 64, 128 + (n / 64) % 64,
        128 + n % 64]

def utf8Bytes (s : String) : List Nat :=
  s.data.foldr (fun c acc => utf8Char c ++ acc) []

/-- Big-endian byte expansion of `n` into `k` bytes. -/
def beBytes : Nat → Nat → List Nat
  | 0, _ => []
  | k + 1, n => ((n >>> (8 * k)) % 256) :: beBytes k n

/-- SHA-256 message padding. -/
def sha256Pad (msg : List Nat) : List Nat :=
  let L := msg.length
  let k := (119 - L % 64) % 64
  msg ++ [128] ++ List.replicate k 0 ++ beBytes 8 (8 * L)

/-- Split a list into chunks of `size` elements (`fuel` bounds recursion). -/
def chunksGo (size : Nat) : Nat → List Nat → List (List Nat)
  | 0, _ => []
  | _, [] => []
  | fuel + 1, l => l.take size :: chunksGo size fuel (l.drop size)

def chunksOf (size : Nat) (l : List Nat) : List (List Nat) :=
  chunksGo size l.length l

def beWord (bytes : List Nat) : Nat :=
  bytes.foldl (fun acc b => acc * 256 + b) 0

/-- Extend the 16 message words to 64 schedule words. -/
def extendW : Nat → List Nat → List Nat
  | 0, w => w
  | n + 1, w =>
    let len := w.length
    let nw := add32
      (add32 (ssig1 (w.getD (len - 2) 0)) (w.getD (len - 7) 0))
      (add32 (ssig0 (w.getD (len - 15) 0)) (w.getD (len - 16) 0))
    extendW n (w ++ [nw])

def sha256Round (st : Nat × Nat × Nat × Nat × Nat × Nat × Nat × Nat)
    (kw : Nat × Nat) : Nat × Nat × Nat × Nat × Nat × Nat × Nat × Nat :=
  let (a, b, c, d, e, f, g, h) := st
  let t1 := add32 (add32 (add32 h (bsig1 e)) (add32 (chf e f g) kw.1)) kw.2
  let t2 := add32 (bsig0 a) (majf a b c)
  (add32 t1 t2, a, b, c, add32 d t1, e, f, g)

def sha256Compress (H : List Nat) (block : List Nat) : List Nat :=
  let W := extendW 48 ((chunksOf 4 block).map beWord)
  let init := (H.getD 0 0, H.getD 1 0, H.getD 2 0, H.getD 3 0,
               H.getD 4 0, H.getD 5 0, H.getD 6 0, H.getD 7 0)
  let (a, b, c, d, e, f, g, h) := (sha256K.zip W).foldl sha256Round init
  [add32 (H.getD 0 0) a, add32 (H.getD 1 0) b, add32 (H.getD 2 0) c,
   add32 (H.getD 3 0) d, add32 (H.getD 4 0) e, add32 (H.getD 5 0) f,
   add32 (H.getD 6 0) g, add32 (H.getD 7 0) h]

def sha256Words (msg : List Nat) : List Nat :=
  (chunksOf 64 (sha256Pad msg)).foldl sha256Compress sha256H0

def hexDigit (n : Nat) : Char :=
  if n < 10 then Char.ofNat (48 + n) else Char.ofNat (87 + n)

/-- Lower-case 8-hex-digit rendering of a 32-bit word. -/
def hex8 (n : Nat) : String :=
  String.mk (((List.range 8).map (fun i => hexDigit ((n >>> (4 * (7 - i))) % 16))))

/-- Model of `hashlib.sha256(s.encode()).hexdigest()`. -/
def sha256Hex (s : String) : String :=
  (sha256Words (utf8Bytes s)).foldl (fun acc w => acc ++ hex8 w) ""

/-! ### Socket.IO variant: rooms and password verification (`app/sockets/room.py`) -/

/-- Room visibility (`RoomType.PUBLIC` / `RoomType.PRIVATE`); `handle_create_room`
coerces any other value to `PUBLIC`, per the data model `visibility : public | private`. -/
inductive Visib
  | pub
  | priv
deriving DecidableEq

/-- The fields of an `active_rooms` entry consulted by the join-time
password check (`type` and `password_hash`). -/
structure AppRoom where
  vtype : Visib
  password_hash : String
deriving DecidableEq

/-- Model of `hash_password` from `app/sockets/room.py`: empty password hashes to `""`. -/
def hashPassword (p : String) : String :=
  if p = "" then "" else sha256Hex p

/-- Model of `verify_password` from `app/sockets/room.py`. -/
def verifyPassword (p hashed : String) : Bool :=
  if hashed = "" then true
  else if p = "" then false
  else hashPassword p == hashed

/-- The admission check performed by `handle_join_room`
(`app/sockets/room.py` lines 183-188): the password is verified only when
the room is private and has a non-empty `password_hash`; the candidate
defaults to `""` when the client sent none (`data.get("password", "")`). -/
def joinPasswordOk (r : AppRoom) (candidate : String) : Bool :=
  match r.vtype with
  | .pub => true
  | .priv => if r.password_hash ≠ "" then verifyPassword candidate r.password_hash else true

/-- The predicate claimed by the spec for `verify_password`
(modelled from the spec words: ok iff visibility is public OR the stored
hash is empty OR `sha256_hex(candidate)` equals the stored hash). -/
def c1SpecOk (r : AppRoom) (candidate : String) : Bool :=
  (r.vtype == .pub) || (r.password_hash == "") || (sha256Hex candidate == r.password_hash)

/-- A private room whose stored hash happens to be the SHA-256 of the
empty string (storable, e.g., via the Firebase room loader, which accepts
an arbitrary `password_hash`). -/
def c1Room : AppRoom := ⟨.priv, sha256Hex ""⟩

/-! ### TCP variant: `handlers/room_manager.py`

Sockets are modelled as natural numbers; the `rooms` and `client_rooms`
dictionaries as functions into `Option`; the `clients` set of a room as a
list used up to membership.  `created_at` timestamps are not consulted by
any operation and are omitted. -/

/-- Pointwise update of a dictionary modelled as a function. -/
def upd {α β : Type} [DecidableEq α] (f : α → Option β) (k : α) (v : Option β) :
    α → Option β :=
  fun x => if x = k then v else f x

/-- The `Room` class of `handlers/room_manager.py`. -/
structure RoomRec where
  room_name : String
  room_type : String
  password : Option String
  created_by : String
  clients : List Nat
  client_usernames : List (Nat × String)

def assocGet (l : List (Nat × String)) (k : Nat) : Option String :=
  (l.find? (fun p => p.1 == k)).map (·.2)

/-- Model of `Room.add_client`. -/
def addClient (r : RoomRec) (c : Nat) (u : String) : Bool × RoomRec :=
  if c ∈ r.clients then (false, r)
  else (true, { r with clients := c :: r.clients,
                       client_usernames := (c, u) :: r.client_usernames })

/-- Model of `Room.remove_client`; returns (success, removed username, room). -/
def removeClientR (r : RoomRec) (c : Nat) : Bool × Option String × RoomRec :=
  if c ∈ r.clients then
    (true, assocGet r.client_usernames c,
     { r with clients := r.clients.filter (fun x => x != c),
              client_usernames := r.client_usernames.filter (fun p => p.1 != c) })
  else (false, none, r)

/-- Model of `Room.check_password`: public rooms need no password; a private room
with a falsy stored password (`None` or `""`) rejects; otherwise the raw
stored password is compared with the raw candidate. -/
def checkPassword (r : RoomRec) (p : Option String) : Bool :=
  if r.room_type = "public" then true
  else
    match r.password with
    | none => false
    | some pw => if pw = "" then false else p == some pw

/-- Model of `Room.broadcast`: the message is sent to every client of the room
except the sender (when a sender socket is given).  Returns the sockets a
send is attempted to. -/
def broadcastRecipients (clients : List Nat) (sender : Option Nat) : List Nat :=
  clients.filter (fun c => sender != some c)

/-- The mutable state of a `RoomManager`. -/
structure RMState where
  rooms : String → Option RoomRec
  client_rooms : Nat → Option String

inductive CreateRes
  | created
  | duplicate
  | badType
  | needPassword
deriving DecidableEq

/-- Model of `RoomManager.create_room`. -/
def createRoom (s : RMState) (name rtype : String) (pw : Option String)
    (creator : String) : CreateRes × RMState :=
  if (s.rooms name).isSome then (.duplicate, s)
  else if rtype ≠ "public" ∧ rtype ≠ "private" then (.badType, s)
  else if rtype = "private" ∧ (pw = none ∨ pw = some "") then (.needPassword, s)
  else (.created,
        { s with rooms := upd s.rooms name (some ⟨name, rtype, pw, creator, [], []⟩) })

/-- Model of `RoomManager.__init__`: empty dictionaries, then the default room
`"Genel"` is created. -/
def initRM : RMState :=
  (createRoom ⟨fun _ => none, fun _ => none⟩ "Genel" "public" none "SERVER").2

inductive DelRes
  | protRoom
  | notFound
  | deletedOk (affected : List Nat)
deriving DecidableEq

/-- Model of `RoomManager.delete_room`.  `"Genel"` is refused before any lookup;
on success the members of the deleted room lose their `client_rooms`
entry and the room is removed. -/
def deleteRoom (s : RMState) (name : String) : DelRes × RMState :=
  if name = "Genel" then (.protRoom, s)
  else
    match s.rooms name with
    | none => (.notFound, s)
    | some room =>
      (.deletedOk room.clients,
       { s with
         client_rooms := fun c =>
           if c ∈ room.clients ∧ s.client_rooms c = some name then none
           else s.client_rooms c,
         rooms := upd s.rooms name none })

inductive JoinRes
  | notFound
  | wrongPassword
  | alreadyInRoom
  | joined
  | joinFailed
deriving DecidableEq

/-- Model of `RoomManager.join_room`.  Mirrors the source exactly: the target room
and its password are checked first; a same-room re-join is refused; a
client already in another room is first removed from it (the removal
persists even if the subsequent `add_client` fails). -/
def joinRoom (s : RMState) (c : Nat) (name u : String) (pw : Option String) :
    JoinRes × RMState :=
  match s.rooms name with
  | none => (.notFound, s)
  | some room =>
    if !(checkPassword room pw) then (.wrongPassword, s)
    else
      match s.client_rooms c with
      | some cur =>
        if cur = name then (.alreadyInRoom, s)
        else
          let s1 :=
            match s.rooms cur with
            | some oldRoom =>
              { s with rooms := upd s.rooms cur (some (removeClientR oldRoom c).2.2) }
            | none => s
          let res := addClient room c u
          if res.1 then
            (.joined, { s1 with rooms := upd s1.rooms name (some res.2),
                                client_rooms := upd s1.client_rooms c (some name) })
          else (.joinFailed, s1)
      | none =>
        let res := addClient room c u
        if res.1 then
          (.joined, { s with rooms := upd s.rooms name (some res.2),
                             client_rooms := upd s.client_rooms c (some name) })
        else (.joinFailed, s)

inductive LeaveRes
  | notInRoom
  | roomMissing (name : String)
  | left (name : String)
  | leaveFailed (name : String)
deriving DecidableEq

/-- Model of `RoomManager.leave_room`. -/
def leaveRoom (s : RMState) (c : Nat) : LeaveRes × RMState :=
  match s.client_rooms c with
  | none => (.notInRoom, s)
  | some rn =>
    match s.rooms rn with
    | none => (.roomMissing rn, { s with client_rooms := upd s.client_rooms c none })
    | some room =>
      let res := removeClientR room c
      let s1 := { s with rooms := upd s.rooms rn (some res.2.2),
                         client_rooms := upd s.client_rooms c none }
      if res.1 then (.left rn, s1) else (.leaveFailed rn, s1)

/-- Model of `RoomManager.remove_client` (disconnect path); returns the Python
triple (success, room name, username). -/
def removeClientRM (s : RMState) (c : Nat) :
    (Bool × Option String × Option String) × RMState :=
  match s.client_rooms c with
  | none => ((false, none, none), s)
  | some rn =>
    match s.rooms rn with
    | none => ((false, none, none), { s with client_rooms := upd s.client_rooms c none })
    | some room =>
      let res := removeClientR room c
      ((res.1, some rn, res.2.1),
       { s with rooms := upd s.rooms rn (some res.2.2),
                client_rooms := upd s.client_rooms c none })

/-- Model of `RoomManager.broadcast_to_room`: fails when the room does not exist or
when a sending client is not in that room; otherwise returns the sockets
the message is sent to. -/
def broadcastToRoom (s : RMState) (name : String) (sender : Option Nat) :
    Bool × List Nat :=
  match s.rooms name with
  | none => (false, [])
  | some room =>
    match sender with
    | some c =>
      if s.client_rooms c ≠ some name then (false, [])
      else (true, broadcastRecipients room.clients (some c))
    | none => (true, broadcastRecipients room.clients none)

/-- The room-manager operations quantified over in the membership
invariant (client-driven commands plus disconnects). -/
inductive RMOp
  | create (name rtype : String) (pw : Option String) (creator : String)
  | join (c : Nat) (name u : String) (pw : Option String)
  | leave (c : Nat)
  | delRoom (name : String)
  | disconnect (c : Nat)

def applyOp (s : RMState) : RMOp → RMState
  | .create name rtype pw creator => (createRoom s name rtype pw creator).2
  | .join c name u pw => (joinRoom s c name u pw).2
  | .leave c => (leaveRoom s c).2
  | .delRoom name => (deleteRoom s name).2
  | .disconnect c => (removeClientRM s c).2

def applyOps (s : RMState) (ops : List RMOp) : RMState :=
  ops.foldl applyOp s

/-- The membership invariant: every session is in at most one room (the
`client_rooms` map is single-valued by construction), the room a session
maps to exists and lists the session among its clients, and conversely
every client listed in a room maps back to that room. -/
def MembershipInv (s : RMState) : Prop :=
  (∀ c r, s.client_rooms c = some r →
     ∃ room, s.rooms r = some room ∧ c ∈ room.clients) ∧
  (∀ r room, s.rooms r = some room → ∀ c ∈ room.clients,
     s.client_rooms c = some r)

/-- State with clients 1 and 2 in `"Genel"`, built through the public
operations. -/
def rmTwo : RMState :=
  applyOps initRM [.join 1 "Genel" "alice" none, .join 2 "Genel" "bob" none]

/-! ### TCP variant: `handlers/message_handler.py`

A message dictionary is modelled by the fields the handler reads and
writes (`messageId`, `username`, `message`, `timestamp`, `edited`,
`updatedAt`); the remaining envelope fields are never consulted.
`room_messages` and `message_history` are dictionaries whose absent keys
behave exactly like an empty list in every operation, so they are modelled
as total functions defaulting to `[]`.  In Python the per-room list and
`message_lookup` hold the *same* dictionary object; an in-place mutation is
modelled by rewriting the record with that `messageId` in both places. -/

structure MessageRec where
  messageId : String
  username : String
  message : String
  timestamp : String
  edited : Bool := false
  updatedAt : Option String := none
deriving DecidableEq

structure MHState where
  room_messages : String → List MessageRec
  message_lookup : String → Option (String × MessageRec)
  deleted_messages : List String
  message_history : String → List MessageRec

def initMH : MHState :=
  ⟨fun _ => [], fun _ => none, [], fun _ => []⟩

/-- Model of `MessageHandler._handle_new_message`: the room is the current
room of the sender (`None` when the client is in no room); `messageId`/`timestamp`
defaulting happens upstream, so the record arrives fully formed. -/
def handleNewMessage (s : MHState) (roomOpt : Option String) (msg : MessageRec) :
    Option MessageRec × MHState :=
  match roomOpt with
  | none => (none, s)
  | some room =>
    (some msg,
     { s with
       room_messages := fun rn =>
         if rn = room then s.room_messages room ++ [msg] else s.room_messages rn,
       message_lookup := fun i =>
         if i = msg.messageId then some (room, msg) else s.message_lookup i })

structure UpdateNote where
  messageId : String
  username : String
  originalTimestamp : String
  updatedAt : String
  oldContent : String
  newContent : String
deriving DecidableEq

/-- Model of `MessageHandler._handle_update_message`.  Field-presence checks are the
`Option` arguments; then: unknown id, already-deleted id, and non-author
requests all return `None` with the state untouched.  On success the
previous record is appended to the history and the record is mutated in
place (content, `updatedAt`, `edited`). -/
def handleUpdateMessage (s : MHState) (mid uname newContent : Option String)
    (now : String) : Option UpdateNote × MHState :=
  match mid, uname, newContent with
  | some mid, some uname, some newContent =>
    match s.message_lookup mid with
    | none => (none, s)
    | some (room, msg) =>
      if mid ∈ s.deleted_messages then (none, s)
      else if msg.username ≠ uname then (none, s)
      else
        let msgUpd := { msg with message := newContent, updatedAt := some now,
                                 edited := true }
        (some ⟨mid, uname, msg.timestamp, now, msg.message, newContent⟩,
         { s with
           message_history := fun i =>
             if i = mid then s.message_history mid ++ [msg] else s.message_history i,
           message_lookup := fun i =>
             if i = mid then some (room, msgUpd) else s.message_lookup i,
           room_messages := fun rn =>
             if rn = room then
               (s.room_messages room).map (fun m => if m.messageId = mid then msgUpd else m)
             else s.room_messages rn })
  | _, _, _ => (none, s)

structure DeleteNote where
  messageId : String
  username : String
  timestamp : String
  originalTimestamp : String
  deletedContent : String
deriving DecidableEq

/-- Model of `MessageHandler._handle_delete_message`.  On success the id is added to
the deleted set, the pre-deletion record is appended to the history, and
every record with that id is removed from the per-room list. -/
def handleDeleteMessage (s : MHState) (mid uname : Option String) (now : String) :
    Option DeleteNote × MHState :=
  match mid, uname with
  | some mid, some uname =>
    match s.message_lookup mid with
    | none => (none, s)
    | some (room, msg) =>
      if mid ∈ s.deleted_messages then (none, s)
      else if msg.username ≠ uname then (none, s)
      else
        (some ⟨mid, uname, now, msg.timestamp, msg.message⟩,
         { s with
           deleted_messages := mid :: s.deleted_messages,
           message_history := fun i =>
             if i = mid then s.message_history mid ++ [msg] else s.message_history i,
           room_messages := fun rn =>
             if rn = room then
               (s.room_messages room).filter (fun m => m.messageId != mid)
             else s.room_messages rn })
  | _, _ => (none, s)

/-- Code-point lexicographic strict comparison of character lists —
the `<` of Python on `str`. -/
def strLtB : List Char → List Char → Bool
  | [], [] => false
  | [], _ :: _ => true
  | _ :: _, [] => false
  | a :: as, b :: bs =>
    if a < b then true else if b < a then false else strLtB as bs

/-- Comparison `s ≤ t` on Python strings, as an executable Boolean. -/
def strLeB (s t : String) : Bool := !(strLtB t.data s.data)

/-- The comparison used by `messages.sort(key=..., reverse=True)`: the sort
of Python is stable, so it coincides with a stable insertion sort placing
`a` before `b` when the timestamp of `b` is at most that of `a`. -/
def tsDescRel (a b : MessageRec) : Prop := strLeB b.timestamp a.timestamp = true

instance : DecidableRel tsDescRel := fun _ _ =>
  inferInstanceAs (Decidable (_ = true))

/-- Model of `MessageHandler.get_room_messages` (the `tail` query): filter out
deleted ids, sort by timestamp newest-first (stable), take the first
`limit` records.  The source default for `limit` is 50. -/
def getRoomMessages (s : MHState) (room : String) (limit : Nat) : List MessageRec :=
  (((s.room_messages room).filter
      (fun m => !(s.deleted_messages.contains m.messageId))).insertionSort
    tsDescRel).take limit

def tsAscRel (a b : MessageRec) : Prop := strLeB a.timestamp b.timestamp = true

instance : DecidableRel tsAscRel := fun _ _ =>
  inferInstanceAs (Decidable (_ = true))

/-- Modelled from the spec words for `tail(room_id, limit)`: "the last
`limit` non-deleted records in chronological order (oldest→newest)". -/
def specTailC3 (s : MHState) (room : String) (limit : Nat) : List MessageRec :=
  let asc := ((s.room_messages room).filter
      (fun m => !(s.deleted_messages.contains m.messageId))).insertionSort tsAscRel
  asc.drop (asc.length - limit)

/-- Model of the dispatch of an update frame in `ChatServer.handle_client`
(`main.py` lines 356-367): the handler result, when truthy, is broadcast to
the room of the sender (with `sender_socket = None`, so every occupant of
the room receives it, the requester included); a `None` result is silently
dropped — no frame is sent to anyone. -/
def tcpUpdateDispatch (s : MHState) (clientRoom : Option String)
    (mid uname newContent : Option String) (now : String) :
    MHState × List (String × UpdateNote) :=
  let res := handleUpdateMessage s mid uname newContent now
  match res.1, clientRoom with
  | some note, some room => (res.2, [(room, note)])
  | some _, none => (res.2, [])
  | none, _ => (res.2, [])

/-! ### Socket.IO variant: messages (`app/sockets/message.py`,
`app/models/message.py`, `app/sockets/connection.py`) -/

/-- The `Message` pydantic model (timestamps as opaque strings). -/
structure AMsg where
  id : String
  user_id : String
  username : String
  content : String
  timestamp : String
  is_system_message : Bool := false
  edited : Bool := false
  edited_at : Option String := none
  deleted : Bool := false
deriving DecidableEq

/-- The `User` fields consulted by the message handlers. -/
structure AUser where
  id : String
  username : String
  room_id : Option String
deriving DecidableEq

/-- The module-level state touched by `handle_update_message`:
`active_connections` (sid → user), `message_by_id` and `room_messages`. -/
structure AppState where
  users : String → Option AUser
  message_by_id : String → Option (String × AMsg)
  roomMsgs : String → List AMsg

/-- One `sio.emit` call: either to a single sid or to a whole room. -/
inductive AEmit
  | toSid (sid : String) (event : String)
  | toRoom (room : String) (event : String)
deriving DecidableEq

/-- Model of `handle_update_message` from `app/sockets/message.py`: unknown user,
falsy `messageId`/`content`, unknown id, and non-author requests each emit
a single `error` to the requester and change nothing; on success the
message object is mutated in place (shared by `message_by_id` and the room
history) and `message_updated` is emitted to the room. -/
def appUpdateMessage (st : AppState) (sid : String) (mid content : Option String)
    (now : String) : AppState × List AEmit :=
  match st.users sid with
  | none => (st, [.toSid sid "error"])
  | some user =>
    match mid, content with
    | some m, some c =>
      if m = "" ∨ c = "" then (st, [.toSid sid "error"])
      else
        match st.message_by_id m with
        | none => (st, [.toSid sid "error"])
        | some (room, msg) =>
          if msg.user_id ≠ user.id then (st, [.toSid sid "error"])
          else
            let msgUpd := { msg with content := c, edited := true,
                                     edited_at := some now }
            ({ st with
               message_by_id := fun i =>
                 if i = m then some (room, msgUpd) else st.message_by_id i,
               roomMsgs := fun rn =>
                 if rn = room then
                   (st.roomMsgs room).map (fun x => if x.id = m then msgUpd else x)
                 else st.roomMsgs rn },
             [.toRoom room "message_updated"])
    | _, _ => (st, [.toSid sid "error"])

/-- The join-time replay of `handle_join_room`
(`room_messages[room_id][-50:]`): the last 50 records of the room history,
in stored order, with no filtering. -/
def appJoinReplay (msgs : List AMsg) : List AMsg :=
  msgs.drop (msgs.length - 50)

/-! ### Username assignment on first frame (`main.py` lines 304-310) -/

/-- Here `existing` is `[info[1] for info in self.clients.values()]` — the
usernames of all connected clients, including the `Misafir-<n>` placeholder
of the authenticating client itself.  On collision the requested name is suffixed
with the current client count; no uniqueness re-check follows. -/
def assignUsername (existing : List String) (requested : String) : String :=
  if requested ∈ existing then requested ++ "_" ++ toString existing.length
  else requested

/-! ### Concrete fixtures for counterexamples and witnesses -/

def mRec1 : MessageRec :=
  { messageId := "m1", username := "carol", message := "first",
    timestamp := "2024-01-01T10:00:00Z" }

def mRec2 : MessageRec :=
  { messageId := "m2", username := "carol", message := "second",
    timestamp := "2024-01-02T10:00:00Z" }

/-- Handler state after Carol posts `m1` then `m2` in room `"r"`. -/
def mhTwo : MHState :=
  (handleNewMessage (handleNewMessage initMH (some "r") mRec1).2 (some "r") mRec2).2

/-- Handler state after additionally deleting `m1` (by its author). -/
def mhDel : MHState :=
  (handleDeleteMessage mhTwo (some "m1") (some "carol") "2024-01-03T00:00:00Z").2

def wDelNote : DeleteNote :=
  ⟨"m1", "carol", "2024-01-03T00:00:00Z", "2024-01-01T10:00:00Z", "first"⟩

/-- A Socket.IO-side state: Bob (sid `"s-bob"`) authored message `"m42"`
with content `"hi"` in room `"r"`; Alice is connected as sid `"s-alice"`. -/
def aMsg42 : AMsg :=
  { id := "m42", user_id := "uid-bob", username := "bob", content := "hi",
    timestamp := "2024-01-01T10:00:00Z" }

def appSt : AppState :=
  { users := fun sid =>
      if sid = "s-alice" then some ⟨"uid-alice", "alice", some "r"⟩
      else if sid = "s-bob" then some ⟨"uid-bob", "bob", some "r"⟩
      else none,
    message_by_id := fun i => if i = "m42" then some ("r", aMsg42) else none,
    roomMsgs := fun rn => if rn = "r" then [aMsg42] else [] }

/-! ## Theorems -/

/-! ### The executable string order agrees with the Mathlib order on `String` -/

theorem strLtB_lex : ∀ l₁ l₂ : List Char, strLtB l₁ l₂ = true ↔ List.Lex (· < ·) l₁ l₂
  | [], [] => by
    simp only [strLtB, Bool.false_eq_true, false_iff]
    intro h
    cases h
  | [], _ :: _ => by
    simp only [strLtB, true_iff]
    exact List.Lex.nil
  | _ :: _, [] => by
    simp only [strLtB, Bool.false_eq_true, false_iff]
    intro h
    cases h
  | a :: as, b :: bs => by
    simp only [strLtB]
    split_ifs with hab hba
    · simp only [true_iff]
      exact List.Lex.rel hab
    · simp only [Bool.false_eq_true, false_iff]
      intro h
      cases h with
      | cons _ => exact absurd hba (lt_irrefl a)
      | rel h => exact absurd h hab
    · rw [strLtB_lex as bs]
      have heq : a = b := le_antisymm (not_lt.mp hba) (not_lt.mp hab)
      subst heq
      constructor
      · exact fun h => List.Lex.cons h
      · intro h
        cases h with
        | cons h => exact h
        | rel h => exact absurd h hab

theorem strLtB_lt (s t : String) : strLtB s.data t.data = true ↔ s < t :=
  (strLtB_lex s.data t.data).trans String.lt_iff_toList_lt.symm

theorem strLeB_le (s t : String) : strLeB s t = true ↔ s ≤ t := by
  unfold strLeB
  rw [Bool.not_eq_true', ← Bool.not_eq_true, strLtB_lt]
  exact not_lt

instance : IsTotal MessageRec tsDescRel :=
  ⟨fun a b => by
    simp only [tsDescRel, strLeB_le]
    exact le_total b.timestamp a.timestamp⟩

instance : IsTrans MessageRec tsDescRel :=
  ⟨fun a b c h1 h2 => by
    simp only [tsDescRel, strLeB_le] at h1 h2 ⊢
    exact le_trans h2 h1⟩

instance : IsTotal MessageRec tsAscRel :=
  ⟨fun a b => by
    simp only [tsAscRel, strLeB_le]
    exact le_total a.timestamp b.timestamp⟩

instance : IsTrans MessageRec tsAscRel :=
  ⟨fun a b c h1 h2 => by
    simp only [tsAscRel, strLeB_le] at h1 h2 ⊢
    exact le_trans h1 h2⟩

/-- Validation of the SHA-256 embedding against the standard test vector
for `"abc"`. -/
theorem sha256Hex_abc :
    sha256Hex "abc" =
      "ba7816bf8f01cfea414140de5dae2223b00361a396177a9cb410ff61f20015ad" := by
  decide

/-! ### C1 — password verification -/

/-- Claim C1 is false as stated: for the private room whose stored
`password_hash` is `sha256_hex("")` and the empty candidate password, the
spec predicate grants admission (the digest of the candidate equals the
stored hash) but `verify_password` denies it (`hash_password` maps `""` to
`""`, and a falsy candidate is rejected whenever a hash is stored). -/
theorem c1_verify_password_cex :
    ¬ (joinPasswordOk c1Room "" = c1SpecOk c1Room "") := by decide

/-- Claim C1 (amended): password verification at join succeeds iff the
room is public, OR the stored `password_hash` is empty, OR the candidate
is non-empty and its lowercase SHA-256 hex digest equals the stored hash. -/
theorem c1_verify_password_amended (r : AppRoom) (p : String) :
    joinPasswordOk r p = true ↔
      (r.vtype = .pub ∨ r.password_hash = "" ∨
       (p ≠ "" ∧ sha256Hex p = r.password_hash)) := by
  obtain ⟨v, hsh⟩ := r
  cases v with
  | pub => simp [joinPasswordOk]
  | priv =>
    simp only [joinPasswordOk]
    split_ifs with h1
    · simp only [verifyPassword, hashPassword]
      rw [if_neg h1]
      split_ifs with h2
      · simp [h1, h2]
      · simp [h1, h2, beq_iff_eq]
    · simp only [ne_eq, not_not] at h1
      simp [h1]

/-! ### C2 — fan-out of `send_message` -/

/-- Claim C2 is false as stated: in a state (reached through the public
operations) where clients 1 and 2 occupy `"Genel"`, the broadcast of a
message sent by client 1 succeeds but client 1 — an occupant of the room —
is not among the recipients: `Room.broadcast` skips the sender. -/
theorem c2_sender_excluded_cex :
    (1 ∈ (rmTwo.rooms "Genel").elim [] RoomRec.clients) ∧
    (broadcastToRoom rmTwo "Genel" (some 1)).1 = true ∧
    1 ∉ (broadcastToRoom rmTwo "Genel" (some 1)).2 := by decide

/-- Claim C2 (amended): the TCP server delivers a `send_message` frame to
every occupant of the room of the sender except the sender itself; a broadcast
without a sender socket reaches every occupant. -/
theorem c2_message_fanout_amended :
    (∀ (clients : List Nat) (sender c : Nat),
       c ∈ broadcastRecipients clients (some sender) ↔ c ∈ clients ∧ c ≠ sender) ∧
    (∀ (clients : List Nat) (c : Nat),
       c ∈ broadcastRecipients clients none ↔ c ∈ clients) := by
  constructor
  · intro clients sender c
    simp only [broadcastRecipients, List.mem_filter, bne_iff_ne, ne_eq,
      Option.some.injEq]
    exact and_congr_right (fun _ => ⟨fun h hc => h hc.symm, fun h hc => h hc.symm⟩)
  · intro clients c
    simp [broadcastRecipients]

/-! ### C3 — history query order -/

/-- Claim C3 is false as stated: with two live messages in room `"r"`
(timestamps 2024-01-01 and 2024-01-02), `get_room_messages` returns them
newest-first, not oldest-first as the `tail` of the spec demands
(`specTailC3` is the reading of the spec, modelled from its words). -/
theorem c3_tail_order_cex :
    getRoomMessages mhTwo "r" 50 ≠ specTailC3 mhTwo "r" 50 ∧
    getRoomMessages mhTwo "r" 50 = [mRec2, mRec1] ∧
    specTailC3 mhTwo "r" 50 = [mRec1, mRec2] := by decide

/-- Claim C3 (amended): `get_room_messages` returns the `limit` most
recent non-deleted records in reverse chronological order (newest first):
the result is non-deleted, sorted newest-first, of length
`min limit (number of non-deleted records)`, and together with some
leftover `rest` it is a permutation of the non-deleted records of the
room, where everything in `rest` is no newer than anything returned — so
the returned records are exactly the most recent ones.  The Socket.IO
join-time replay sends the last 50 stored records of the room, in stored
order. -/
theorem c3_tail_amended :
    (∀ (s : MHState) (room : String) (limit : Nat),
       (∀ m ∈ getRoomMessages s room limit,
          m.messageId ∉ s.deleted_messages) ∧
       List.Pairwise (fun a b : MessageRec => b.timestamp ≤ a.timestamp)
         (getRoomMessages s room limit) ∧
       (getRoomMessages s room limit).length =
         min limit ((s.room_messages room).filter
           (fun m => !(s.deleted_messages.contains m.messageId))).length ∧
       ∃ rest : List MessageRec,
         ((s.room_messages room).filter
            (fun m => !(s.deleted_messages.contains m.messageId))).Perm
           (getRoomMessages s room limit ++ rest) ∧
         ∀ m ∈ getRoomMessages s room limit, ∀ m2 ∈ rest,
           m2.timestamp ≤ m.timestamp) ∧
    (∀ msgs : List AMsg,
       appJoinReplay msgs <:+ msgs ∧ (appJoinReplay msgs).length = min 50 msgs.length) := by
  constructor
  · intro s room limit
    have hdecomp : getRoomMessages s room limit ++
        (((s.room_messages room).filter
            (fun m => !(s.deleted_messages.contains m.messageId))).insertionSort
          tsDescRel).drop limit =
        ((s.room_messages room).filter
            (fun m => !(s.deleted_messages.contains m.messageId))).insertionSort
          tsDescRel := by
      simp only [getRoomMessages]
      exact List.take_append_drop _ _
    have hp : List.Pairwise tsDescRel
        (getRoomMessages s room limit ++
         (((s.room_messages room).filter
             (fun m => !(s.deleted_messages.contains m.messageId))).insertionSort
           tsDescRel).drop limit) := by
      rw [hdecomp]
      exact List.sorted_insertionSort tsDescRel _
    obtain ⟨hp1, hp2, hp3⟩ := List.pairwise_append.mp hp
    refine ⟨?_, hp1.imp (fun h => (strLeB_le _ _).mp h), ?_, ?_⟩
    · intro m hm
      have hm2 := (List.perm_insertionSort tsDescRel _).mem_iff.mp
        (List.take_subset _ _ hm)
      have hpred := (List.mem_filter.mp hm2).2
      simpa using hpred
    · rw [getRoomMessages, List.length_take, List.length_insertionSort]
    · refine ⟨(((s.room_messages room).filter
          (fun m => !(s.deleted_messages.contains m.messageId))).insertionSort
            tsDescRel).drop limit, ?_, ?_⟩
      · rw [hdecomp]
        exact (List.perm_insertionSort _ _).symm
      · intro m hm m2 hm2
        exact (strLeB_le _ _).mp (hp3 m hm m2 hm2)
  · intro msgs
    refine ⟨List.drop_suffix _ _, ?_⟩
    rw [appJoinReplay, List.length_drop]
    omega

/-- Witness for the amended C3 theorem: the single record of a
limit-1 query on the two-message state is not deleted. -/
theorem c3_tail_amended_w :
    mRec2 ∈ getRoomMessages mhTwo "r" 1 ∧
    mRec2.messageId ∉ mhTwo.deleted_messages :=
  ⟨by decide, (c3_tail_amended.1 mhTwo "r" 1).1 mRec2 (by decide)⟩

/-! ### C4 — soft delete -/

/-- Claim C4 is false as stated: after Carol deletes `m1` the record is
*removed* from the per-room message list (`_handle_delete_message` filters
it out), so "the record still remains in the per-room list" fails. -/
theorem c4_deleted_record_cex :
    ¬ (mRec1 ∈ mhDel.room_messages "r" ∧
       ∀ limit, mRec1 ∉ getRoomMessages mhDel "r" limit) := by
  intro h
  exact absurd h.1 (by decide)

/-- Claim C4 (amended): a successful delete removes every record with the
id of the message from the list of its room (while the id stays reserved in
`message_lookup`), and the message never appears in any history query of
any room at any limit. -/
theorem c4_soft_delete_amended
    (s : MHState) (mid uname now room : String) (msg : MessageRec)
    (note : DeleteNote) (s2 : MHState)
    (hlook : s.message_lookup mid = some (room, msg))
    (hrun : handleDeleteMessage s (some mid) (some uname) now = (some note, s2)) :
    (∀ m ∈ s2.room_messages room, m.messageId ≠ mid) ∧
    (∀ (room2 : String) (limit : Nat) (m : MessageRec),
        m ∈ getRoomMessages s2 room2 limit → m.messageId ≠ mid) ∧
    s2.message_lookup mid = some (room, msg) := by
  simp only [handleDeleteMessage, hlook] at hrun
  split_ifs at hrun with h1 h2
  · simp at hrun
  · simp at hrun
  rw [Prod.mk.injEq] at hrun
  obtain ⟨hnote, hs2⟩ := hrun
  subst hs2
  refine ⟨?_, ?_, hlook⟩
  · intro m hm
    simp only [if_pos rfl] at hm
    have := (List.mem_filter.mp hm).2
    simpa [bne_iff_ne] using this
  · intro room2 limit m hm
    have hm2 := (List.perm_insertionSort tsDescRel _).mem_iff.mp
      (List.take_subset _ _ hm)
    have hpred := (List.mem_filter.mp hm2).2
    intro heq
    rw [heq] at hpred
    simp [List.contains_cons] at hpred

/-- Witness for the amended C4 theorem at the concrete two-message state. -/
theorem c4_soft_delete_w :
    (mhTwo.message_lookup "m1" = some ("r", mRec1)) ∧
    (handleDeleteMessage mhTwo (some "m1") (some "carol") "2024-01-03T00:00:00Z" =
       (some wDelNote, mhDel)) ∧
    ((∀ m ∈ mhDel.room_messages "r", m.messageId ≠ "m1") ∧
     (∀ (room2 : String) (limit : Nat) (m : MessageRec),
        m ∈ getRoomMessages mhDel room2 limit → m.messageId ≠ "m1") ∧
     mhDel.message_lookup "m1" = some ("r", mRec1)) :=
  ⟨rfl, rfl,
   c4_soft_delete_amended mhTwo "m1" "carol" "2024-01-03T00:00:00Z" "r" mRec1
     wDelNote mhDel rfl rfl⟩

/-! ### C5 — the membership invariant (helper lemmas) -/

theorem upd_self {α β : Type} [DecidableEq α] (f : α → Option β) (k : α)
    (v : Option β) : upd f k v k = v := by
  simp [upd]

theorem upd_ne {α β : Type} [DecidableEq α] (f : α → Option β) (k : α)
    (v : Option β) {x : α} (h : x ≠ k) : upd f k v x = f x := by
  simp [upd, h]

theorem mem_removeClientR (r : RoomRec) (c x : Nat) :
    x ∈ (removeClientR r c).2.2.clients ↔ x ∈ r.clients ∧ x ≠ c := by
  unfold removeClientR
  split_ifs with hc
  · simp [List.mem_filter, bne_iff_ne]
  · constructor
    · intro hx
      exact ⟨hx, fun he => hc (he ▸ hx)⟩
    · exact fun hx => hx.1

theorem inv_createRoom (s : RMState) (name rtype : String) (pw : Option String)
    (creator : String) (h : MembershipInv s) :
    MembershipInv (createRoom s name rtype pw creator).2 := by
  unfold createRoom
  split_ifs with h1 h2 h3
  · exact h
  · exact h
  · exact h
  constructor
  · intro c r hc
    dsimp only at hc ⊢
    obtain ⟨room, hr, hmem⟩ := h.1 c r hc
    refine ⟨room, ?_, hmem⟩
    by_cases hrn : r = name
    · subst hrn
      exact absurd (by simp [hr]) h1
    · rw [upd_ne _ _ _ hrn]
      exact hr
  · intro r room hr c hc
    dsimp only at hr ⊢
    by_cases hrn : r = name
    · subst hrn
      rw [upd_self] at hr
      cases hr
      simp at hc
    · rw [upd_ne _ _ _ hrn] at hr
      exact h.2 r room hr c hc

theorem inv_deleteRoom (s : RMState) (name : String) (h : MembershipInv s) :
    MembershipInv (deleteRoom s name).2 := by
  unfold deleteRoom
  split_ifs with h1
  · exact h
  cases hr : s.rooms name with
  | none => exact h
  | some room =>
    constructor
    · intro c r hc
      dsimp only at hc ⊢
      by_cases hcc : c ∈ room.clients ∧ s.client_rooms c = some name
      · rw [if_pos hcc] at hc
        cases hc
      · rw [if_neg hcc] at hc
        obtain ⟨rm, hrm, hmem⟩ := h.1 c r hc
        refine ⟨rm, ?_, hmem⟩
        by_cases hrn : r = name
        · subst hrn
          rw [hr] at hrm
          cases hrm
          exact absurd ⟨hmem, hc⟩ hcc
        · rw [upd_ne _ _ _ hrn]
          exact hrm
    · intro r rm hrm c hc
      dsimp only at hrm ⊢
      by_cases hrn : r = name
      · subst hrn
        rw [upd_self] at hrm
        cases hrm
      · rw [upd_ne _ _ _ hrn] at hrm
        have hcr := h.2 r rm hrm c hc
        rw [if_neg ?_]
        · exact hcr
        · intro hcc
          rw [hcr] at hcc
          exact hrn (Option.some.inj hcc.2)

theorem addClient_pos (r : RoomRec) (c : Nat) (u : String) (h : c ∈ r.clients) :
    addClient r c u = (false, r) := by
  rw [addClient, if_pos h]

theorem addClient_neg (r : RoomRec) (c : Nat) (u : String) (h : c ∉ r.clients) :
    addClient r c u =
      (true, { r with clients := c :: r.clients,
                      client_usernames := (c, u) :: r.client_usernames }) := by
  rw [addClient, if_neg h]

theorem joinRoom_notFound_eq (s : RMState) (c : Nat) (name u : String)
    (pw : Option String) (hr : s.rooms name = none) :
    joinRoom s c name u pw = (.notFound, s) := by
  unfold joinRoom
  rw [hr]

theorem joinRoom_badpw_eq (s : RMState) (c : Nat) (name u : String)
    (pw : Option String) (room : RoomRec) (hr : s.rooms name = some room)
    (hpw : (!(checkPassword room pw)) = true) :
    joinRoom s c name u pw = (.wrongPassword, s) := by
  unfold joinRoom
  rw [hr]
  dsimp only
  rw [if_pos hpw]

theorem joinRoom_same_eq (s : RMState) (c : Nat) (name u : String)
    (pw : Option String) (room : RoomRec) (hr : s.rooms name = some room)
    (hpw : ¬ (!(checkPassword room pw)) = true)
    (hcur : s.client_rooms c = some name) :
    joinRoom s c name u pw = (.alreadyInRoom, s) := by
  unfold joinRoom
  rw [hr]
  dsimp only
  rw [if_neg hpw, hcur]
  dsimp only
  rw [if_pos rfl]

theorem joinRoom_fresh_fail_eq (s : RMState) (c : Nat) (name u : String)
    (pw : Option String) (room : RoomRec) (hr : s.rooms name = some room)
    (hpw : ¬ (!(checkPassword room pw)) = true)
    (hcur : s.client_rooms c = none) (hmem : c ∈ room.clients) :
    joinRoom s c name u pw = (.joinFailed, s) := by
  unfold joinRoom
  rw [hr]
  dsimp only
  rw [if_neg hpw, hcur]
  dsimp only
  rw [addClient_pos room c u hmem]
  rfl

theorem joinRoom_fresh_eq (s : RMState) (c : Nat) (name u : String)
    (pw : Option String) (room : RoomRec) (hr : s.rooms name = some room)
    (hpw : ¬ (!(checkPassword room pw)) = true)
    (hcur : s.client_rooms c = none) (hmem : c ∉ room.clients) :
    joinRoom s c name u pw =
      (.joined,
       { s with
         rooms := upd s.rooms name
           (some { room with clients := c :: room.clients,
                             client_usernames := (c, u) :: room.client_usernames }),
         client_rooms := upd s.client_rooms c (some name) }) := by
  unfold joinRoom
  rw [hr]
  dsimp only
  rw [if_neg hpw, hcur]
  dsimp only
  rw [addClient_neg room c u hmem]
  rfl

theorem joinRoom_move_eq (s : RMState) (c : Nat) (name u : String)
    (pw : Option String) (room cur0room : RoomRec) (cur : String)
    (hr : s.rooms name = some room)
    (hpw : ¬ (!(checkPassword room pw)) = true)
    (hcur : s.client_rooms c = some cur) (hsame : ¬ cur = name)
    (hold0 : s.rooms cur = some cur0room) (hmem : c ∉ room.clients) :
    joinRoom s c name u pw =
      (.joined,
       { s with
         rooms := upd (upd s.rooms cur (some (removeClientR cur0room c).2.2)) name
           (some { room with clients := c :: room.clients,
                             client_usernames := (c, u) :: room.client_usernames }),
         client_rooms := upd s.client_rooms c (some name) }) := by
  unfold joinRoom
  rw [hr]
  dsimp only
  rw [if_neg hpw, hcur]
  dsimp only
  rw [if_neg hsame, hold0]
  dsimp only
  rw [addClient_neg room c u hmem]
  rfl

/-- Invariant preservation for the fresh-join target state. -/
theorem inv_joinFresh (s : RMState) (c : Nat) (name u : String) (room : RoomRec)
    (hr : s.rooms name = some room) (hcur : s.client_rooms c = none)
    (h : MembershipInv s) :
    MembershipInv
      { s with
        rooms := upd s.rooms name
          (some { room with clients := c :: room.clients,
                            client_usernames := (c, u) :: room.client_usernames }),
        client_rooms := upd s.client_rooms c (some name) } := by
  constructor
  · intro c0 r0 hc0
    dsimp only at hc0 ⊢
    by_cases hc0c : c0 = c
    · subst hc0c
      rw [upd_self] at hc0
      cases hc0
      exact ⟨_, upd_self _ _ _, List.mem_cons_self _ _⟩
    · rw [upd_ne _ _ _ hc0c] at hc0
      obtain ⟨rm, hrm, hmemm⟩ := h.1 c0 r0 hc0
      by_cases hr0 : r0 = name
      · subst hr0
        rw [hr] at hrm
        cases hrm
        exact ⟨_, upd_self _ _ _, List.mem_cons_of_mem _ hmemm⟩
      · exact ⟨rm, by rw [upd_ne _ _ _ hr0]; exact hrm, hmemm⟩
  · intro r0 rm0 hrm0 c0 hc0
    dsimp only at hrm0 ⊢
    by_cases hr0 : r0 = name
    · subst hr0
      rw [upd_self] at hrm0
      cases hrm0
      rcases List.mem_cons.mp hc0 with hc0 | hc0
      · subst hc0
        rw [upd_self]
      · have hcl := h.2 r0 room hr c0 hc0
        have hne : c0 ≠ c := by
          intro he
          subst he
          rw [hcur] at hcl
          cases hcl
        rw [upd_ne _ _ _ hne]
        exact hcl
    · rw [upd_ne _ _ _ hr0] at hrm0
      have hcl := h.2 r0 rm0 hrm0 c0 hc0
      have hne : c0 ≠ c := by
        intro he
        subst he
        rw [hcur] at hcl
        cases hcl
      rw [upd_ne _ _ _ hne]
      exact hcl

/-- Invariant preservation for the atomic-move target state. -/
theorem inv_joinMove (s : RMState) (c : Nat) (name u : String)
    (room cur0room : RoomRec) (cur : String)
    (hr : s.rooms name = some room)
    (hcur : s.client_rooms c = some cur) (hsame : ¬ cur = name)
    (hold0 : s.rooms cur = some cur0room)
    (h : MembershipInv s) :
    MembershipInv
      { s with
        rooms := upd (upd s.rooms cur (some (removeClientR cur0room c).2.2)) name
          (some { room with clients := c :: room.clients,
                            client_usernames := (c, u) :: room.client_usernames }),
        client_rooms := upd s.client_rooms c (some name) } := by
  constructor
  · intro c0 r0 hc0
    dsimp only at hc0 ⊢
    by_cases hc0c : c0 = c
    · subst hc0c
      rw [upd_self] at hc0
      cases hc0
      exact ⟨_, upd_self _ _ _, List.mem_cons_self _ _⟩
    · rw [upd_ne _ _ _ hc0c] at hc0
      obtain ⟨rm, hrm, hmemm⟩ := h.1 c0 r0 hc0
      by_cases hr0 : r0 = name
      · subst hr0
        rw [hr] at hrm
        cases hrm
        exact ⟨_, upd_self _ _ _, List.mem_cons_of_mem _ hmemm⟩
      · by_cases hr0c : r0 = cur
        · subst hr0c
          rw [hold0] at hrm
          cases hrm
          refine ⟨_, ?_, (mem_removeClientR _ _ _).mpr ⟨hmemm, hc0c⟩⟩
          rw [upd_ne _ _ _ hr0, upd_self]
        · refine ⟨rm, ?_, hmemm⟩
          rw [upd_ne _ _ _ hr0, upd_ne _ _ _ hr0c]
          exact hrm
  · intro r0 rm0 hrm0 c0 hc0
    dsimp only at hrm0 ⊢
    by_cases hr0 : r0 = name
    · subst hr0
      rw [upd_self] at hrm0
      cases hrm0
      rcases List.mem_cons.mp hc0 with hc0 | hc0
      · subst hc0
        rw [upd_self]
      · have hcl := h.2 r0 room hr c0 hc0
        have hne : c0 ≠ c := by
          intro he
          subst he
          rw [hcur] at hcl
          exact hsame (Option.some.inj hcl)
        rw [upd_ne _ _ _ hne]
        exact hcl
    · rw [upd_ne _ _ _ hr0] at hrm0
      by_cases hr0c : r0 = cur
      · subst hr0c
        rw [upd_self] at hrm0
        cases hrm0
        obtain ⟨hc0m, hc0c⟩ := (mem_removeClientR _ _ _).mp hc0
        have hcl := h.2 r0 cur0room hold0 c0 hc0m
        rw [upd_ne _ _ _ hc0c]
        exact hcl
      · rw [upd_ne _ _ _ hr0c] at hrm0
        have hcl := h.2 r0 rm0 hrm0 c0 hc0
        have hne : c0 ≠ c := by
          intro he
          subst he
          rw [hcur] at hcl
          exact hr0c (Option.some.inj hcl).symm
        rw [upd_ne _ _ _ hne]
        exact hcl

theorem inv_joinRoom (s : RMState) (c : Nat) (name u : String) (pw : Option String)
    (h : MembershipInv s) : MembershipInv (joinRoom s c name u pw).2 := by
  cases hr : s.rooms name with
  | none =>
    rw [joinRoom_notFound_eq s c name u pw hr]
    exact h
  | some room =>
    by_cases hpw : (!(checkPassword room pw)) = true
    · rw [joinRoom_badpw_eq s c name u pw room hr hpw]
      exact h
    · cases hcur : s.client_rooms c with
      | none =>
        by_cases hmem : c ∈ room.clients
        · rw [joinRoom_fresh_fail_eq s c name u pw room hr hpw hcur hmem]
          exact h
        · rw [joinRoom_fresh_eq s c name u pw room hr hpw hcur hmem]
          exact inv_joinFresh s c name u room hr hcur h
      | some cur =>
        by_cases hsame : cur = name
        · rw [joinRoom_same_eq s c name u pw room hr hpw (hsame ▸ hcur)]
          exact h
        · have hnm : c ∉ room.clients := by
            intro hm
            have hcl := h.2 name room hr c hm
            rw [hcur] at hcl
            exact hsame (Option.some.inj hcl)
          obtain ⟨cur0room, hold0, hcm⟩ := h.1 c cur hcur
          rw [joinRoom_move_eq s c name u pw room cur0room cur hr hpw hcur hsame hold0 hnm]
          exact inv_joinMove s c name u room cur0room cur hr hcur hsame hold0 h

/-- Shared state shape: a client whose recorded room is missing from the
room store gets its `client_rooms` entry cleared. -/
theorem inv_clearClient (s : RMState) (c : Nat) (rn : String)
    (hcur : s.client_rooms c = some rn) (hold : s.rooms rn = none)
    (h : MembershipInv s) :
    MembershipInv { s with client_rooms := upd s.client_rooms c none } := by
  constructor
  · intro c0 r0 hc0
    dsimp only at hc0 ⊢
    by_cases hc0c : c0 = c
    · subst hc0c
      rw [upd_self] at hc0
      cases hc0
    · rw [upd_ne _ _ _ hc0c] at hc0
      exact h.1 c0 r0 hc0
  · intro r0 rm0 hrm0 c0 hc0
    dsimp only at hrm0 ⊢
    have hcl := h.2 r0 rm0 hrm0 c0 hc0
    have hne : c0 ≠ c := by
      intro he
      subst he
      rw [hcur] at hcl
      cases hcl
      rw [hold] at hrm0
      cases hrm0
    rw [upd_ne _ _ _ hne]
    exact hcl

/-- Shared state shape: removing client `c` from its recorded room. -/
theorem inv_removeState (s : RMState) (c : Nat) (rn : String) (room : RoomRec)
    (hcur : s.client_rooms c = some rn) (hold : s.rooms rn = some room)
    (h : MembershipInv s) :
    MembershipInv { s with
      rooms := upd s.rooms rn (some (removeClientR room c).2.2),
      client_rooms := upd s.client_rooms c none } := by
  constructor
  · intro c0 r0 hc0
    dsimp only at hc0 ⊢
    by_cases hc0c : c0 = c
    · subst hc0c
      rw [upd_self] at hc0
      cases hc0
    · rw [upd_ne _ _ _ hc0c] at hc0
      obtain ⟨rm, hrm, hmemm⟩ := h.1 c0 r0 hc0
      by_cases hr0 : r0 = rn
      · subst hr0
        rw [hold] at hrm
        cases hrm
        exact ⟨_, upd_self _ _ _, (mem_removeClientR _ _ _).mpr ⟨hmemm, hc0c⟩⟩
      · refine ⟨rm, ?_, hmemm⟩
        rw [upd_ne _ _ _ hr0]
        exact hrm
  · intro r0 rm0 hrm0 c0 hc0
    dsimp only at hrm0 ⊢
    by_cases hr0 : r0 = rn
    · subst hr0
      rw [upd_self] at hrm0
      cases hrm0
      obtain ⟨hc0m, hc0c⟩ := (mem_removeClientR _ _ _).mp hc0
      have hcl := h.2 r0 room hold c0 hc0m
      rw [upd_ne _ _ _ hc0c]
      exact hcl
    · rw [upd_ne _ _ _ hr0] at hrm0
      have hcl := h.2 r0 rm0 hrm0 c0 hc0
      have hne : c0 ≠ c := by
        intro he
        subst he
        rw [hcur] at hcl
        cases hcl
        exact hr0 rfl
      rw [upd_ne _ _ _ hne]
      exact hcl

theorem inv_leaveRoom (s : RMState) (c : Nat) (h : MembershipInv s) :
    MembershipInv (leaveRoom s c).2 := by
  unfold leaveRoom
  cases hcur : s.client_rooms c with
  | none => exact h
  | some rn =>
    dsimp only
    cases hold : s.rooms rn with
    | none => exact inv_clearClient s c rn hcur hold h
    | some room =>
      dsimp only
      by_cases hres : (removeClientR room c).1 = true
      · rw [if_pos hres]
        exact inv_removeState s c rn room hcur hold h
      · rw [if_neg hres]
        exact inv_removeState s c rn room hcur hold h

theorem inv_removeClientRM (s : RMState) (c : Nat) (h : MembershipInv s) :
    MembershipInv (removeClientRM s c).2 := by
  unfold removeClientRM
  cases hcur : s.client_rooms c with
  | none => exact h
  | some rn =>
    dsimp only
    cases hold : s.rooms rn with
    | none => exact inv_clearClient s c rn hcur hold h
    | some room => exact inv_removeState s c rn room hcur hold h

theorem initRM_eq :
    initRM = ⟨fun n => if n = "Genel"
                then some ⟨"Genel", "public", none, "SERVER", [], []⟩ else none,
              fun _ => none⟩ := rfl

theorem membershipInv_init : MembershipInv initRM := by
  rw [initRM_eq]
  constructor
  · intro c r hc
    cases hc
  · intro r room hr c hc
    dsimp only at hr
    by_cases hg : r = "Genel"
    · rw [if_pos hg] at hr
      cases hr
      simp at hc
    · rw [if_neg hg] at hr
      cases hr

/-- Claim C5: after every sequence of room-manager operations starting
from the initial state, every session is mapped to at most one room, and
the session→room map is consistent with the room store and the room→client
reverse index in both directions. -/
theorem c5_membership_invariant (ops : List RMOp) :
    (∀ (c : Nat) (r1 r2 : String),
        (applyOps initRM ops).client_rooms c = some r1 →
        (applyOps initRM ops).client_rooms c = some r2 → r1 = r2) ∧
    MembershipInv (applyOps initRM ops) := by
  have main : ∀ (l : List RMOp) (s : RMState),
      MembershipInv s → MembershipInv (applyOps s l) := by
    intro l
    induction l with
    | nil => exact fun s h => h
    | cons op rest ih =>
      intro s h
      rw [applyOps, List.foldl_cons]
      refine ih _ ?_
      cases op with
      | create name rtype pw creator => exact inv_createRoom s name rtype pw creator h
      | join c name u pw => exact inv_joinRoom s c name u pw h
      | leave c => exact inv_leaveRoom s c h
      | delRoom name => exact inv_deleteRoom s name h
      | disconnect c => exact inv_removeClientRM s c h
  refine ⟨?_, main ops initRM membershipInv_init⟩
  intro c r1 r2 h1 h2
  rw [h1] at h2
  exact Option.some.inj h2

/-- Witness for C5 at the concrete state where clients 1 and 2 joined
`"Genel"`. -/
theorem c5_membership_invariant_w :
    rmTwo.client_rooms 1 = some "Genel" ∧
    ∃ room, rmTwo.rooms "Genel" = some room ∧ 1 ∈ room.clients :=
  ⟨rfl, (c5_membership_invariant
      [.join 1 "Genel" "alice" none, .join 2 "Genel" "bob" none]).2.1 1 "Genel" rfl⟩

/-! ### C6 — the default room -/

theorem isSome_upd_some (f : String → Option RoomRec) (k : String) (v : RoomRec)
    (x : String) (h : (f x).isSome = true) :
    ((upd f k (some v)) x).isSome = true := by
  by_cases hx : x = k
  · subst hx
    rw [upd_self]
    rfl
  · rw [upd_ne _ _ _ hx]
    exact h

theorem genel_preserved (s : RMState) (op : RMOp)
    (h : (s.rooms "Genel").isSome = true) :
    ((applyOp s op).rooms "Genel").isSome = true := by
  cases op with
  | create name rtype pw creator =>
    show (((createRoom s name rtype pw creator).2).rooms "Genel").isSome = true
    unfold createRoom
    split_ifs
    · exact h
    · exact h
    · exact h
    · exact isSome_upd_some _ _ _ _ h
  | join c name u pw =>
    show (((joinRoom s c name u pw).2).rooms "Genel").isSome = true
    unfold joinRoom
    cases hr : s.rooms name with
    | none => exact h
    | some room =>
      dsimp only
      by_cases hpw : (!(checkPassword room pw)) = true
      · rw [if_pos hpw]
        exact h
      · rw [if_neg hpw]
        cases hcur : s.client_rooms c with
        | none =>
          dsimp only
          by_cases hmem : c ∈ room.clients
          · rw [addClient_pos room c u hmem]
            exact h
          · rw [addClient_neg room c u hmem]
            exact isSome_upd_some _ _ _ _ h
        | some cur =>
          dsimp only
          by_cases hsame : cur = name
          · rw [if_pos hsame]
            exact h
          · rw [if_neg hsame]
            cases hold : s.rooms cur with
            | none =>
              by_cases hmem : c ∈ room.clients
              · rw [addClient_pos room c u hmem]
                exact h
              · rw [addClient_neg room c u hmem]
                exact isSome_upd_some _ _ _ _ h
            | some oldRoom =>
              by_cases hmem : c ∈ room.clients
              · rw [addClient_pos room c u hmem]
                exact isSome_upd_some _ _ _ _ h
              · rw [addClient_neg room c u hmem]
                exact isSome_upd_some _ _ _ _ (isSome_upd_some _ _ _ _ h)
  | leave c =>
    show (((leaveRoom s c).2).rooms "Genel").isSome = true
    unfold leaveRoom
    cases hcur : s.client_rooms c with
    | none => exact h
    | some rn =>
      dsimp only
      cases hold : s.rooms rn with
      | none => exact h
      | some room =>
        dsimp only
        by_cases hres : (removeClientR room c).1 = true
        · rw [if_pos hres]
          exact isSome_upd_some _ _ _ _ h
        · rw [if_neg hres]
          exact isSome_upd_some _ _ _ _ h
  | delRoom name =>
    show (((deleteRoom s name).2).rooms "Genel").isSome = true
    unfold deleteRoom
    split_ifs with h1
    · exact h
    · cases hr : s.rooms name with
      | none => exact h
      | some room =>
        dsimp only
        rw [upd_ne _ _ _ (fun he => h1 he.symm)]
        exact h
  | disconnect c =>
    show (((removeClientRM s c).2).rooms "Genel").isSome = true
    unfold removeClientRM
    cases hcur : s.client_rooms c with
    | none => exact h
    | some rn =>
      dsimp only
      cases hold : s.rooms rn with
      | none => exact h
      | some room => exact isSome_upd_some _ _ _ _ h

/-- Claim C6 is false as stated: the default room of this code base is
named `"Genel"`, not `"General"` — at initialization no room `"General"`
exists, and deleting `"General"` reports `not found`, not the protected
error. -/
theorem c6_general_room_cex :
    (initRM.rooms "General").isSome = false ∧
    (deleteRoom initRM "General").1 = DelRes.notFound := by decide

/-- Claim C6 (amended): the default room `"Genel"` exists from
initialization and survives every sequence of operations, and deleting
`"Genel"` always returns the protected error with the whole state
unchanged. -/
theorem c6_genel_protected :
    (∀ ops : List RMOp, ((applyOps initRM ops).rooms "Genel").isSome = true) ∧
    (∀ s : RMState, deleteRoom s "Genel" = (DelRes.protRoom, s)) := by
  constructor
  · intro ops
    have main : ∀ (l : List RMOp) (s : RMState),
        (s.rooms "Genel").isSome = true →
        ((applyOps s l).rooms "Genel").isSome = true := by
      intro l
      induction l with
      | nil => exact fun s h => h
      | cons op rest ih =>
        intro s h
        rw [applyOps, List.foldl_cons]
        exact ih _ (genel_preserved s op h)
    exact main ops initRM rfl
  · intro s
    rw [deleteRoom, if_pos rfl]

/-! ### C7 — edit authorization -/

/-- Claim C7 is false as stated: when `dave` (not the author of `m1`) asks
the TCP server to edit `m1`, `_handle_update_message` returns `None` and
the dispatch in `handle_client` (`main.py` lines 356-367) drops it
silently — the emission list of the dispatch is empty, so no Forbidden
error frame is sent to the requester (or to anyone). -/
theorem c7_forbidden_edit_cex :
    mhTwo.message_lookup "m1" = some ("r", mRec1) ∧
    mRec1.username ≠ "dave" ∧
    (tcpUpdateDispatch mhTwo (some "r") (some "m1") (some "dave") (some "x")
       "T").2 = [] :=
  ⟨rfl, by decide, rfl⟩

/-- Claim C7 (amended): a non-author edit request changes nothing — the
content and history of the message are untouched — in both variants; the
Socket.IO handler emits a single `error` event to the requester only,
while the TCP server emits no frame at all (the refusal is silently
dropped, with the state unchanged). -/
theorem c7_forbidden_edit :
    (∀ (st : AppState) (sid : String) (user : AUser) (room : String) (msg : AMsg)
       (m c now : String),
       st.users sid = some user →
       st.message_by_id m = some (room, msg) →
       m ≠ "" → c ≠ "" →
       msg.user_id ≠ user.id →
       appUpdateMessage st sid (some m) (some c) now =
         (st, [AEmit.toSid sid "error"])) ∧
    (∀ (s : MHState) (mid uname c now room : String) (msg : MessageRec),
       s.message_lookup mid = some (room, msg) →
       msg.username ≠ uname →
       handleUpdateMessage s (some mid) (some uname) (some c) now = (none, s)) ∧
    (∀ (s : MHState) (clientRoom : Option String) (mid uname c now room : String)
       (msg : MessageRec),
       s.message_lookup mid = some (room, msg) →
       msg.username ≠ uname →
       tcpUpdateDispatch s clientRoom (some mid) (some uname) (some c) now =
         (s, [])) := by
  have h2 : ∀ (s : MHState) (mid uname c now room : String) (msg : MessageRec),
      s.message_lookup mid = some (room, msg) →
      msg.username ≠ uname →
      handleUpdateMessage s (some mid) (some uname) (some c) now = (none, s) := by
    intro s mid uname c now room msg hl hauth
    simp only [handleUpdateMessage, hl]
    by_cases h1 : mid ∈ s.deleted_messages
    · rw [if_pos h1]
    · rw [if_neg h1, if_pos hauth]
  refine ⟨?_, h2, ?_⟩
  · intro st sid user room msg m c now hu hm hm0 hc0 hauth
    simp only [appUpdateMessage, hu, hm]
    rw [if_neg (by simp [hm0, hc0]), if_pos hauth]
  · intro s clientRoom mid uname c now room msg hl hauth
    unfold tcpUpdateDispatch
    rw [h2 s mid uname c now room msg hl hauth]

/-- Witness for the amended C7 theorem: Alice (not the author) tries to
edit the message `m42` of Bob in the Socket.IO state, and `dave` tries to
edit `m1` of Carol in the TCP state (handler refusal and silent dispatch). -/
theorem c7_forbidden_edit_w :
    (appSt.users "s-alice" = some ⟨"uid-alice", "alice", some "r"⟩) ∧
    (appSt.message_by_id "m42" = some ("r", aMsg42)) ∧
    (aMsg42.user_id ≠ "uid-alice") ∧
    (appUpdateMessage appSt "s-alice" (some "m42") (some "changed") "T" =
       (appSt, [AEmit.toSid "s-alice" "error"])) ∧
    (mhTwo.message_lookup "m1" = some ("r", mRec1)) ∧
    (mRec1.username ≠ "dave") ∧
    (handleUpdateMessage mhTwo (some "m1") (some "dave") (some "x") "T" =
       (none, mhTwo)) ∧
    (tcpUpdateDispatch mhTwo (some "r") (some "m1") (some "dave") (some "x") "T" =
       (mhTwo, [])) :=
  ⟨rfl, rfl, by decide,
   c7_forbidden_edit.1 appSt "s-alice" ⟨"uid-alice", "alice", some "r"⟩ "r" aMsg42
     "m42" "changed" "T" rfl rfl (by decide) (by decide) (by decide),
   rfl, by decide,
   c7_forbidden_edit.2.1 mhTwo "m1" "dave" "x" "T" "r" mRec1 rfl (by decide),
   c7_forbidden_edit.2.2 mhTwo (some "r") "m1" "dave" "x" "T" "r" mRec1 rfl
     (by decide)⟩

/-! ### C8 — editing twice with the same content -/

/-- Claim C8: two successive author edits of a live message to the same
content leave the content equal to that content and append exactly two
entries to the history of the message. -/
theorem c8_double_edit
    (s : MHState) (mid uname c room : String) (msg : MessageRec) (t1 t2 : String)
    (hlook : s.message_lookup mid = some (room, msg))
    (hdel : mid ∉ s.deleted_messages)
    (hauth : msg.username = uname) :
    (((handleUpdateMessage
         (handleUpdateMessage s (some mid) (some uname) (some c) t1).2
         (some mid) (some uname) (some c) t2).2.message_lookup mid).map
       (fun p => p.2.message) = some c) ∧
    ((handleUpdateMessage
         (handleUpdateMessage s (some mid) (some uname) (some c) t1).2
         (some mid) (some uname) (some c) t2).2.message_history mid).length =
      (s.message_history mid).length + 2 := by
  have hne : ¬ (msg.username ≠ uname) := by simp [hauth]
  simp only [handleUpdateMessage, hlook, if_neg hdel, if_neg hne]
  simp [hdel, hauth]

/-- Witness for C8: Carol edits her own live message `m2` twice. -/
theorem c8_double_edit_w :
    (mhTwo.message_lookup "m2" = some ("r", mRec2)) ∧
    ("m2" ∉ mhTwo.deleted_messages) ∧
    (mRec2.username = "carol") ∧
    ((((handleUpdateMessage
          (handleUpdateMessage mhTwo (some "m2") (some "carol") (some "v2") "T1").2
          (some "m2") (some "carol") (some "v2") "T2").2.message_lookup "m2").map
        (fun p => p.2.message) = some "v2") ∧
     ((handleUpdateMessage
          (handleUpdateMessage mhTwo (some "m2") (some "carol") (some "v2") "T1").2
          (some "m2") (some "carol") (some "v2") "T2").2.message_history "m2").length =
       (mhTwo.message_history "m2").length + 2) :=
  ⟨rfl, by decide, by decide,
   c8_double_edit mhTwo "m2" "carol" "v2" "r" mRec2 "T1" "T2" rfl (by decide) (by decide)⟩

/-! ### C9 — username collision handling -/

/-- Claim C9 is false as stated: with live sessions named `eve` and
`eve_3` plus the authenticating placeholder `Misafir-3`, a request for
`eve` is assigned `eve_3` (`eve` collides, and the suffix is simply the
client count `3`), which collides with the other live session — no
"smallest `k` making it unique" search exists. -/
theorem c9_username_collision_cex :
    assignUsername ["eve", "eve_3", "Misafir-3"] "eve" = "eve_3" ∧
    "eve_3" ∈ ["eve", "eve_3"] := by decide

/-- Claim C9 (amended): on collision the assigned value is
`requested_<n>` where `n` is exactly the live-session count (including the
placeholder of the authenticating session); no uniqueness re-check is done, so
the result is unique across the other live sessions only when
`requested_<n>` is itself not already taken. -/
theorem c9_username_assignment_amended
    (other : List String) (temp requested : String) :
    (requested ∉ other ++ [temp] →
       assignUsername (other ++ [temp]) requested = requested ∧ requested ∉ other) ∧
    (requested ∈ other ++ [temp] →
       assignUsername (other ++ [temp]) requested =
         requested ++ "_" ++ toString (other.length + 1)) ∧
    (requested ∈ other ++ [temp] →
       (requested ++ "_" ++ toString (other.length + 1)) ∉ other →
       assignUsername (other ++ [temp]) requested ∉ other) := by
  refine ⟨?_, ?_, ?_⟩
  · intro h
    rw [assignUsername, if_neg h]
    exact ⟨rfl, fun hx => h (List.mem_append_left _ hx)⟩
  · intro h
    rw [assignUsername, if_pos h, List.length_append]
    simp
  · intro h h2
    rw [assignUsername, if_pos h, List.length_append]
    simpa using h2

/-- Witness for the amended C9 theorem: `eve` collides, the suffixed
`eve_2` is fresh, and the assignment is unique. -/
theorem c9_username_assignment_w :
    ("eve" ∈ ["eve"] ++ ["Misafir-2"]) ∧
    (("eve" ++ "_" ++ toString ((["eve"] : List String).length + 1)) ∉ (["eve"] : List String)) ∧
    assignUsername (["eve"] ++ ["Misafir-2"]) "eve" ∉ (["eve"] : List String) :=
  ⟨by decide, by decide,
   (c9_username_assignment_amended ["eve"] "Misafir-2" "eve").2.2 (by decide) (by decide)⟩

/-! ### C10 — re-joining the current room -/

/-- Claim C10: a client already in room `r` that asks to join `r` again
gets an error result (`already in room`, or a password error first) and
the state is completely unchanged. -/
theorem c10_rejoin_same_room
    (s : RMState) (c : Nat) (r u : String) (pw : Option String)
    (h : s.client_rooms c = some r) :
    (joinRoom s c r u pw).1 ≠ JoinRes.joined ∧ (joinRoom s c r u pw).2 = s := by
  simp only [joinRoom]
  cases hr : s.rooms r with
  | none => simp
  | some room =>
    simp only [h]
    split_ifs with hpw
    · simp
    · simp

/-- Witness for C10 at the concrete state with client 1 in `"Genel"`. -/
theorem c10_rejoin_same_room_w :
    (rmTwo.client_rooms 1 = some "Genel") ∧
    ((joinRoom rmTwo 1 "Genel" "alice" none).1 ≠ JoinRes.joined ∧
     (joinRoom rmTwo 1 "Genel" "alice" none).2 = rmTwo) :=
  ⟨rfl, c10_rejoin_same_room rmTwo 1 "Genel" "alice" none rfl⟩
